import Mathlib

/-
  Formal model of the OSS resource manager (oss.c, utils.c).

  The master process keeps an array of resource descriptors (available
  counts per resource type), a process table (per-slot pid, scheduling
  state, allocation and request vectors, and the resource index a blocked
  slot is waiting for), and statistics counters.  Messages from worker
  processes are dispatched in checkForMessages; blocked waiters are swept
  in checkWaitingRequests; deadlock detection and recovery live in
  detectDeadlock and resolveDeadlock.  Machine integers stay inside the
  ranges guarded by the code, so counts are modelled as Nat; the 32-bit
  clock arithmetic of utils.c is modelled with explicit reduction
  modulo 2 ^ 32.
-/

/-- MAX_PROC of resource.h: number of process-table slots. -/
abbrev MAX_PROC : Nat := 18

/-- MAX_RESOURCES of resource.h: number of resource types. -/
abbrev MAX_RESOURCES : Nat := 5

/-- MAX_INSTANCES of resource.h: instances per resource type (the total K). -/
abbrev MAX_INSTANCES : Nat := 10

/-- Process state UNUSED of resource.h. -/
abbrev UNUSED : Nat := 0

/-- Process state READY of resource.h. -/
abbrev READY : Nat := 1

/-- Process state BLOCKED of resource.h. -/
abbrev BLOCKED : Nat := 2

/-- Modulus of the 32-bit unsigned arithmetic used by the clock code. -/
def U32 : Nat := 4294967296

/-- SystemClock of resource.h: seconds and nanoseconds, both unsigned int. -/
structure SystemClock where
  seconds : Nat
  nanoseconds : Nat

/-- The while-loop of addTime in utils.c: repeatedly subtract one second
worth of nanoseconds, incrementing the (wrapping) seconds counter.  The
fuel bound is only consumed while nanoseconds exceed 10 ^ 9; five units
suffice for every value below 2 ^ 32. -/
def normalizeClock : Nat → Nat → Nat → Nat × Nat
  | 0, sec, ns => (sec, ns)
  | fuel + 1, sec, ns =>
      if 1000000000 ≤ ns then normalizeClock fuel ((sec + 1) % U32) (ns - 1000000000)
      else (sec, ns)

/-- addTime of utils.c: add a seconds and nanoseconds delta to a clock,
with unsigned 32-bit wrap-around, then normalise the nanoseconds field. -/
def addTime (c : SystemClock) (sec ns : Nat) : SystemClock :=
  let p := normalizeClock 5 ((c.seconds + sec) % U32) ((c.nanoseconds + ns) % U32)
  ⟨p.1, p.2⟩

/-- compareTime of utils.c: lexicographic comparison of two clock values. -/
def compareTime (sec1 ns1 sec2 ns2 : Nat) : Int :=
  if sec1 < sec2 then -1
  else if sec1 > sec2 then 1
  else if ns1 < ns2 then -1
  else if ns1 > ns2 then 1
  else 0

/-- getElapsedTime of utils.c: elapsed seconds and nanoseconds from start
to end, borrowing one second when the end nanoseconds are smaller, with
unsigned 32-bit wrap-around on each subtraction. -/
def getElapsedTime (s e : SystemClock) : Nat × Nat :=
  let es := (e.seconds + U32 - s.seconds) % U32
  if e.nanoseconds < s.nanoseconds then
    ((es + U32 - 1) % U32, (1000000000 + e.nanoseconds + U32 - s.nanoseconds) % U32)
  else
    (es, e.nanoseconds - s.nanoseconds)

/-- The per-iteration clock increment of the main loop of oss.c:
rand() % 1000000 + 10000, as a function of the raw rand() value. -/
def nsIncrement (randVal : Nat) : Nat := randVal % 1000000 + 10000

/-- Lines 150 to 155 of oss.c: add the random increment to the shared
clock and normalise the nanoseconds field with a single conditional
subtraction. -/
def mainClockTick (c : SystemClock) (randVal : Nat) : SystemClock :=
  let ns := (c.nanoseconds + nsIncrement randVal) % U32
  if 1000000000 ≤ ns then ⟨(c.seconds + 1) % U32, ns - 1000000000⟩
  else ⟨c.seconds, ns⟩

/-- The master state of oss.c: resource descriptors (available counts),
process table (pid, state, allocation and request vectors, waited-for
resource) and the statistics counters touched by the arbiter. -/
structure OssState where
  available : Fin MAX_RESOURCES → Nat
  pid : Fin MAX_PROC → Nat
  state : Fin MAX_PROC → Nat
  allocated : Fin MAX_PROC → Fin MAX_RESOURCES → Nat
  requested : Fin MAX_PROC → Fin MAX_RESOURCES → Nat
  waiting_for : Fin MAX_PROC → Option (Fin MAX_RESOURCES)
  requests_granted_immediately : Nat
  requests_granted_after_wait : Nat
  processes_terminated_by_deadlock : Nat

/-- The state set up by initProcessTable and initResourceDescriptors:
every slot unused with zero vectors, every resource fully available. -/
def initState : OssState where
  available := fun _ => MAX_INSTANCES
  pid := fun _ => 0
  state := fun _ => UNUSED
  allocated := fun _ _ => 0
  requested := fun _ _ => 0
  waiting_for := fun _ => none
  requests_granted_immediately := 0
  requests_granted_after_wait := 0
  processes_terminated_by_deadlock := 0

/-- One inbound message as read by checkForMessages of oss.c: the switch
dispatches on mtype, carrying the sender slot, the resource index and a
num_instances field (which the request and release handlers never read). -/
inductive Msg where
  | request (sender : Fin MAX_PROC) (res : Fin MAX_RESOURCES) (num : Nat)
  | release (sender : Fin MAX_PROC) (res : Fin MAX_RESOURCES) (num : Nat)
  | terminate (sender : Fin MAX_PROC)

/-- The body of the message switch in checkForMessages of oss.c, handling
one received message.  A request is granted one instance when the resource
has any available, otherwise the sender is blocked and its request count
incremented; a release returns one instance when the sender holds any;
a terminate message is a no-op (resources are reaped elsewhere).  The
returned list holds the grant messages sent, as (slot, resource) pairs. -/
def handleMessage (st : OssState) (m : Msg) :
    OssState × List (Fin MAX_PROC × Fin MAX_RESOURCES) :=
  match m with
  | .request i r _ =>
      if 0 < st.available r then
        ({ st with
            available := Function.update st.available r (st.available r - 1),
            allocated := Function.update st.allocated i
              (Function.update (st.allocated i) r (st.allocated i r + 1)),
            requests_granted_immediately := st.requests_granted_immediately + 1 },
          [(i, r)])
      else
        ({ st with
            state := Function.update st.state i BLOCKED,
            waiting_for := Function.update st.waiting_for i (some r),
            requested := Function.update st.requested i
              (Function.update (st.requested i) r (st.requested i r + 1)) },
          [])
  | .release i r _ =>
      if 0 < st.allocated i r then
        ({ st with
            allocated := Function.update st.allocated i
              (Function.update (st.allocated i) r (st.allocated i r - 1)),
            available := Function.update st.available r (st.available r + 1) },
          [])
      else (st, [])
  | .terminate _ => (st, [])

/-- The loop body of checkWaitingRequests of oss.c for one slot: a blocked
slot waiting for a resource with a positive available count is granted one
instance, unblocked and marked ready; its request vector is not touched. -/
def serveSlot (acc : OssState × List (Fin MAX_PROC × Fin MAX_RESOURCES))
    (i : Fin MAX_PROC) : OssState × List (Fin MAX_PROC × Fin MAX_RESOURCES) :=
  let st := acc.1
  if st.state i = BLOCKED then
    match st.waiting_for i with
    | some r =>
        if 0 < st.available r then
          ({ st with
              available := Function.update st.available r (st.available r - 1),
              allocated := Function.update st.allocated i
                (Function.update (st.allocated i) r (st.allocated i r + 1)),
              waiting_for := Function.update st.waiting_for i none,
              state := Function.update st.state i READY,
              requests_granted_after_wait := st.requests_granted_after_wait + 1 },
            acc.2 ++ [(i, r)])
        else acc
    | none => acc
  else acc

/-- checkWaitingRequests of oss.c: sweep the process table in slot-index
order, granting every blocked waiter whose resource has available
instances.  Returns the new state and the grants sent, in order. -/
def checkWaitingRequests (st : OssState) :
    OssState × List (Fin MAX_PROC × Fin MAX_RESOURCES) :=
  (List.finRange MAX_PROC).foldl serveSlot (st, [])

/-- releaseAllResources of oss.c: return every instance held by a slot to
the available pool and zero the slot allocation vector. -/
def releaseAllResources (st : OssState) (i : Fin MAX_PROC) : OssState :=
  { st with
      available := fun r => st.available r + st.allocated i r,
      allocated := Function.update st.allocated i (fun _ => 0) }

/-- The can_finish test of detectDeadlock in oss.c: every requested count
of the slot is covered by the work vector. -/
def canFinish (st : OssState) (work : Fin MAX_RESOURCES → Nat) (i : Fin MAX_PROC) : Bool :=
  decide (∀ r, st.requested i r ≤ work r)

/-- Accumulator of one pass of the detection loop of oss.c: the work
vector, the finish flags and the found flag of the current pass. -/
structure DetectAcc where
  work : Fin MAX_RESOURCES → Nat
  finish : Fin MAX_PROC → Bool
  found : Bool

/-- The inner for-loop body of detectDeadlock of oss.c: an occupied,
unfinished slot whose request is covered by work donates its allocation
to work and is marked finished, setting the found flag. -/
def passStep (st : OssState) (a : DetectAcc) (i : Fin MAX_PROC) : DetectAcc :=
  if st.pid i ≠ 0 ∧ a.finish i = false ∧ canFinish st a.work i = true then
    ⟨fun r => a.work r + st.allocated i r, Function.update a.finish i true, true⟩
  else a

/-- One full pass of the do-while loop of detectDeadlock of oss.c: scan
all slots in index order with the found flag reset. -/
def detectPass (st : OssState) (w : Fin MAX_RESOURCES → Nat)
    (f : Fin MAX_PROC → Bool) : DetectAcc :=
  (List.finRange MAX_PROC).foldl (passStep st) ⟨w, f, false⟩

/-- The do-while loop of detectDeadlock of oss.c: repeat passes while the
found flag is set.  Each successful pass finishes at least one of the
MAX_PROC slots, so fuel MAX_PROC + 1 always reaches the fixpoint. -/
def detectLoopFuel (st : OssState) :
    Nat → (Fin MAX_RESOURCES → Nat) → (Fin MAX_PROC → Bool) →
      (Fin MAX_RESOURCES → Nat) × (Fin MAX_PROC → Bool)
  | 0, w, f => (w, f)
  | n + 1, w, f =>
      if (detectPass st w f).found = true then
        detectLoopFuel st n (detectPass st w f).work (detectPass st w f).finish
      else ((detectPass st w f).work, (detectPass st w f).finish)

/-- detectDeadlock of oss.c: run the safety loop from work = available and
finish true exactly on the empty slots; returns the final work vector and
finish flags. -/
def detectDeadlock (st : OssState) :
    (Fin MAX_RESOURCES → Nat) × (Fin MAX_PROC → Bool) :=
  detectLoopFuel st (MAX_PROC + 1) st.available (fun i => decide (st.pid i = 0))

/-- The deadlocked array filled at the end of detectDeadlock of oss.c:
occupied slots left unfinished by the safety loop. -/
def deadlockedSet (st : OssState) : Fin MAX_PROC → Bool :=
  fun i => decide (st.pid i ≠ 0) && !(detectDeadlock st).2 i

/-- num_deadlocked as returned by detectDeadlock of oss.c. -/
def numDeadlocked (st : OssState) : Nat :=
  ((List.finRange MAX_PROC).filter fun i => deadlockedSet st i).length

/-- resolveDeadlock of oss.c: terminate the first deadlocked slot in
index order, releasing its resources and marking the slot unused, then
return (the break after one victim). -/
def resolveDeadlock (st : OssState) (dead : Fin MAX_PROC → Bool) : OssState :=
  match (List.finRange MAX_PROC).find? (fun i => dead i) with
  | some i =>
      { releaseAllResources st i with
          pid := Function.update (releaseAllResources st i).pid i 0,
          state := Function.update (releaseAllResources st i).state i UNUSED,
          processes_terminated_by_deadlock := st.processes_terminated_by_deadlock + 1 }
  | none => st

/-- A completion ordering over slots: each listed slot is occupied and can
finish with the work accumulated from the allocations of the slots listed
before it. -/
def chainOk (st : OssState) : (Fin MAX_RESOURCES → Nat) → List (Fin MAX_PROC) → Bool
  | _, [] => true
  | w, i :: l =>
      decide (st.pid i ≠ 0) && canFinish st w i &&
        chainOk st (fun r => w r + st.allocated i r) l

/-- The work vector after donating the allocations of a list of slots. -/
def endWork (st : OssState) : (Fin MAX_RESOURCES → Nat) → List (Fin MAX_PROC) →
    Fin MAX_RESOURCES → Nat
  | w, [] => w
  | w, i :: l => endWork st (fun r => w r + st.allocated i r) l

/-- Invariant of the detection loop: the finished slots are exactly the
empty slots plus a duplicate-free completion ordering, and the work vector
is the available vector plus the allocations of the ordered slots. -/
def detectInv (st : OssState) (w : Fin MAX_RESOURCES → Nat)
    (f : Fin MAX_PROC → Bool) : Prop :=
  ∃ L : List (Fin MAX_PROC), chainOk st st.available L = true ∧ L.Nodup ∧
    (∀ i, f i = true ↔ (st.pid i = 0 ∨ i ∈ L)) ∧ w = endWork st st.available L

/-- Number of unfinished flags, the measure of the detection loop. -/
def unfinishedCard (f : Fin MAX_PROC → Bool) : Nat :=
  (Finset.univ.filter fun i => f i = false).card

/-- Resource conservation: for every resource type, the available count
plus the per-slot allocated counts equal the fixed total MAX_INSTANCES. -/
def conserved (st : OssState) : Prop :=
  ∀ r, st.available r + ∑ i, st.allocated i r = MAX_INSTANCES

/-- A reachable two-slot circular-wait state: slot 0 holds all of resource
0 and waits for resource 1, slot 1 holds all of resource 1 and waits for
resource 0. -/
def cstDeadlock : OssState :=
  { initState with
      pid := fun i => if i.val = 0 then 21 else if i.val = 1 then 22 else 0,
      state := fun i => if i.val ≤ 1 then BLOCKED else UNUSED,
      available := fun r => if r.val ≤ 1 then 0 else MAX_INSTANCES,
      allocated := fun i r =>
        if i.val = 0 ∧ r.val = 0 then MAX_INSTANCES
        else if i.val = 1 ∧ r.val = 1 then MAX_INSTANCES else 0,
      requested := fun i r =>
        if i.val = 0 ∧ r.val = 1 then 1
        else if i.val = 1 ∧ r.val = 0 then 1 else 0,
      waiting_for := fun i =>
        if i.val = 0 then some 1 else if i.val = 1 then some 0 else none }

/-- Base state for the re-grant ordering run: slots 0, 1, 2 active and
ready, slot 0 holding all instances of resource 0. -/
def c3base : OssState :=
  { initState with
      pid := fun i => if i.val ≤ 2 then 30 + i.val else 0,
      state := fun i => if i.val ≤ 2 then READY else UNUSED,
      available := fun r => if r.val = 0 then 0 else MAX_INSTANCES,
      allocated := fun i r => if i.val = 0 ∧ r.val = 0 then MAX_INSTANCES else 0 }

/-- After slot 2 requests resource 0 (blocking first) and then slot 1
requests resource 0 (blocking second). -/
def c3blocked : OssState :=
  (handleMessage (handleMessage c3base (Msg.request 2 0 1)).1 (Msg.request 1 0 1)).1

/-- After slot 0 then releases two instances of resource 0, one message
at a time, so that both waiters can be satisfied. -/
def c3released : OssState :=
  (handleMessage (handleMessage c3blocked (Msg.release 0 0 1)).1 (Msg.release 0 0 1)).1

/-- A three-slot state whose deadlocked set is {0, 1, 2} but where slots
1 and 2 stay circularly deadlocked after slot 0 is terminated: slot 0
holds resource 0 and waits for resource 1; slots 1 and 2 hold all of
resources 1 and 2 and wait for each other. -/
def cstTriple : OssState :=
  { initState with
      pid := fun i => if i.val ≤ 2 then 40 + i.val else 0,
      state := fun i => if i.val ≤ 2 then BLOCKED else UNUSED,
      available := fun r => if r.val ≤ 2 then 0 else MAX_INSTANCES,
      allocated := fun i r => if i.val = r.val ∧ i.val ≤ 2 then MAX_INSTANCES else 0,
      requested := fun i r =>
        if i.val = 0 ∧ r.val = 1 then 1
        else if i.val = 1 ∧ r.val = 2 then 1
        else if i.val = 2 ∧ r.val = 1 then 1 else 0,
      waiting_for := fun i =>
        if i.val = 0 then some 1
        else if i.val = 1 then some 2
        else if i.val = 2 then some 1 else none }

/-- A state with slot 1 blocked waiting for resource 0, holding an
outstanding request of one instance, while resource 0 has one instance
available. -/
def cstWaiter : OssState :=
  { initState with
      pid := fun i => if i.val = 1 then 7 else 0,
      state := fun i => if i.val = 1 then BLOCKED else UNUSED,
      available := fun r => if r.val = 0 then 1 else MAX_INSTANCES,
      requested := fun i r => if i.val = 1 ∧ r.val = 0 then 1 else 0,
      waiting_for := fun i => if i.val = 1 then some 0 else none }

/-- A state with slot 0 ready and holding two instances of resource 0. -/
def cstHolder : OssState :=
  { initState with
      pid := fun i => if i.val = 0 then 5 else 0,
      state := fun i => if i.val = 0 then READY else UNUSED,
      available := fun r => if r.val = 0 then 8 else MAX_INSTANCES,
      allocated := fun i r => if i.val = 0 ∧ r.val = 0 then 2 else 0 }

/-- A state with slot 0 ready and only one instance of resource 0
available. -/
def cstScarce : OssState :=
  { initState with
      pid := fun i => if i.val = 0 then 4 else 0,
      state := fun i => if i.val = 0 then READY else UNUSED,
      available := fun r => if r.val = 0 then 1 else MAX_INSTANCES }

/-- A state with slot 0 blocked (not ready) while every resource is fully
available. -/
def cstBlockedSlot : OssState :=
  { initState with
      pid := fun i => if i.val = 0 then 9 else 0,
      state := fun i => if i.val = 0 then BLOCKED else UNUSED,
      requested := fun i r => if i.val = 0 ∧ r.val = 1 then 1 else 0,
      waiting_for := fun i => if i.val = 0 then some 1 else none }

/- Column-sum helpers for the allocation matrix. -/

theorem col_sum_update (f : Fin MAX_PROC → Fin MAX_RESOURCES → Nat) (i : Fin MAX_PROC)
    (g : Fin MAX_RESOURCES → Nat) (r : Fin MAX_RESOURCES) :
    f i r + ∑ j, Function.update f i g j r = g r + ∑ j, f j r := by
  have h1 : ∑ j, Function.update f i g j r
      = Function.update f i g i r + ∑ j ∈ Finset.univ.erase i, Function.update f i g j r :=
    (Finset.add_sum_erase Finset.univ (fun j => Function.update f i g j r)
      (Finset.mem_univ i)).symm
  have h2 : ∑ j, f j r = f i r + ∑ j ∈ Finset.univ.erase i, f j r :=
    (Finset.add_sum_erase Finset.univ (fun j => f j r) (Finset.mem_univ i)).symm
  have h3 : ∑ j ∈ Finset.univ.erase i, Function.update f i g j r
      = ∑ j ∈ Finset.univ.erase i, f j r := by
    refine Finset.sum_congr rfl ?_
    intro j hj
    rw [Function.update_noteq (Finset.mem_erase.mp hj).1]
  rw [h1, Function.update_same, h3, h2]
  omega

theorem col_sum_update_eq (f : Fin MAX_PROC → Fin MAX_RESOURCES → Nat) (i : Fin MAX_PROC)
    (g : Fin MAX_RESOURCES → Nat) (r : Fin MAX_RESOURCES) (hg : g r = f i r) :
    ∑ j, Function.update f i g j r = ∑ j, f j r := by
  refine Finset.sum_congr rfl ?_
  intro j _
  by_cases hji : j = i
  · subst hji; rw [Function.update_same, hg]
  · rw [Function.update_noteq hji]

theorem col_le_sum (f : Fin MAX_PROC → Fin MAX_RESOURCES → Nat) (i : Fin MAX_PROC)
    (r : Fin MAX_RESOURCES) : f i r ≤ ∑ j, f j r :=
  Finset.single_le_sum (f := fun j => f j r) (fun _ _ => Nat.zero_le _) (Finset.mem_univ i)

theorem conserved_handleMessage (st : OssState) (m : Msg) (h : conserved st) :
    conserved (handleMessage st m).1 := by
  cases m with
  | request i r q =>
      by_cases ha : 0 < st.available r
      · intro s
        simp only [handleMessage, if_pos ha]
        by_cases hs : s = r
        · subst hs
          have hcol := col_sum_update st.allocated i
            (Function.update (st.allocated i) s (st.allocated i s + 1)) s
          rw [Function.update_same] at hcol
          have hc := h s
          rw [Function.update_same]
          omega
        · have hcol := col_sum_update_eq st.allocated i
            (Function.update (st.allocated i) r (st.allocated i r + 1)) s
            (Function.update_noteq hs _ _)
          have hc := h s
          rw [Function.update_noteq (fun hsr => hs hsr)]
          omega
      · intro s
        simp only [handleMessage, if_neg ha]
        exact h s
  | release i r q =>
      by_cases ha : 0 < st.allocated i r
      · intro s
        simp only [handleMessage, if_pos ha]
        by_cases hs : s = r
        · subst hs
          have hcol := col_sum_update st.allocated i
            (Function.update (st.allocated i) s (st.allocated i s - 1)) s
          rw [Function.update_same] at hcol
          have hle := col_le_sum st.allocated i s
          have hc := h s
          rw [Function.update_same]
          omega
        · have hcol := col_sum_update_eq st.allocated i
            (Function.update (st.allocated i) r (st.allocated i r - 1)) s
            (Function.update_noteq hs _ _)
          have hc := h s
          rw [Function.update_noteq (fun hsr => hs hsr)]
          omega
      · intro s
        simp only [handleMessage, if_neg ha]
        exact h s
  | terminate i => exact h

theorem conserved_releaseAllResources (st : OssState) (i : Fin MAX_PROC)
    (h : conserved st) : conserved (releaseAllResources st i) := by
  intro s
  simp only [releaseAllResources]
  have hcol := col_sum_update st.allocated i (fun _ => 0) s
  have hle := col_le_sum st.allocated i s
  have hc := h s
  omega

theorem conserved_initState : conserved initState := by
  intro r
  simp [initState, conserved]

/-- C1: after handling any message (request, release or terminate) and
after releaseAllResources, the sum of the available count of a resource
and the allocated counts over all slots is still the fixed total
MAX_INSTANCES, provided it was before; the initial state satisfies the
invariant. -/
theorem conservation_preserved (st : OssState) (m : Msg) (i : Fin MAX_PROC)
    (h : conserved st) :
    conserved (handleMessage st m).1 ∧ conserved (releaseAllResources st i) ∧
      conserved initState :=
  ⟨conserved_handleMessage st m h, conserved_releaseAllResources st i h,
    conserved_initState⟩

/-- C1 witness: the preservation theorem applied at the initial state and
a concrete request message. -/
theorem conservation_preserved_witness :
    conserved (handleMessage initState (Msg.request 0 0 1)).1 ∧
      conserved (releaseAllResources initState 0) ∧ conserved initState :=
  conservation_preserved initState (Msg.request 0 0 1) 0 (by
    intro r
    simp [initState, conserved])

/-- C7 counterexample: with one instance of resource 0 available, a
request for two instances from ready slot 0 is not parked; the code
grants a single instance (a partial grant), emits a grant message and
leaves the slot ready, contradicting the claim that a request with
quantity above the available count allocates nothing and blocks the
sender. -/
theorem request_partial_grant_counterexample :
    (handleMessage cstScarce (Msg.request 0 0 2)).1.allocated 0 0 = 1 ∧
      (handleMessage cstScarce (Msg.request 0 0 2)).1.available 0 = 0 ∧
      (handleMessage cstScarce (Msg.request 0 0 2)).2 = [(0, 0)] ∧
      (handleMessage cstScarce (Msg.request 0 0 2)).1.state 0 = READY ∧
      ¬((handleMessage cstScarce (Msg.request 0 0 2)).1.allocated 0 0 = 0 ∧
        (handleMessage cstScarce (Msg.request 0 0 2)).1.state 0 = BLOCKED) := by
  decide

/-- C7 (amended): a request message is treated as a request for exactly
one instance, whatever quantity it carries.  When the resource has any
instance available the code grants synchronously: available drops by one,
the sender gains one, every slot keeps its scheduling state and request
vector, one grant message for the sender is emitted and the immediate
counter increments.  When none is available nothing is allocated, the
sender is blocked with its request count incremented and no grant is
emitted. -/
theorem request_single_instance_grant (st : OssState) (i : Fin MAX_PROC)
    (r : Fin MAX_RESOURCES) (q : Nat) :
    (0 < st.available r →
      (handleMessage st (Msg.request i r q)).1.available r = st.available r - 1 ∧
      (handleMessage st (Msg.request i r q)).1.allocated i r = st.allocated i r + 1 ∧
      (∀ j, (handleMessage st (Msg.request i r q)).1.state j = st.state j) ∧
      (∀ j s, (handleMessage st (Msg.request i r q)).1.requested j s = st.requested j s) ∧
      (handleMessage st (Msg.request i r q)).2 = [(i, r)] ∧
      (handleMessage st (Msg.request i r q)).1.requests_granted_immediately
        = st.requests_granted_immediately + 1) ∧
    (st.available r = 0 →
      (handleMessage st (Msg.request i r q)).1.available = st.available ∧
      (handleMessage st (Msg.request i r q)).1.allocated = st.allocated ∧
      (handleMessage st (Msg.request i r q)).1.state i = BLOCKED ∧
      (handleMessage st (Msg.request i r q)).1.requested i r = st.requested i r + 1 ∧
      (handleMessage st (Msg.request i r q)).1.waiting_for i = some r ∧
      (handleMessage st (Msg.request i r q)).2 = []) := by
  constructor
  · intro ha
    refine ⟨?_, ?_, ?_, ?_, ?_, ?_⟩
    · simp [handleMessage, if_pos ha]
    · simp [handleMessage, if_pos ha]
    · intro j; simp [handleMessage, if_pos ha]
    · intro j s; simp [handleMessage, if_pos ha]
    · simp [handleMessage, if_pos ha]
    · simp [handleMessage, if_pos ha]
  · intro ha
    have ha' : ¬(0 < st.available r) := by omega
    refine ⟨?_, ?_, ?_, ?_, ?_, ?_⟩ <;>
      simp [handleMessage, if_neg ha']

/-- C7 witness: the amended grant characterisation applied at the initial
state, whose resources are all available. -/
theorem request_single_instance_grant_witness :
    (handleMessage initState (Msg.request 1 1 1)).1.allocated 1 1
      = initState.allocated 1 1 + 1 :=
  ((request_single_instance_grant initState 1 1 1).1 (by decide)).2.1

/-- C8 counterexample: a request from slot 0 while it is blocked (not
ready) is not rejected: the ledger changes, with an instance moved from
the available pool to the allocation of slot 0, contradicting the claim
that such a request leaves the state entirely unchanged. -/
theorem nonready_request_counterexample :
    cstBlockedSlot.state 0 = BLOCKED ∧
      (handleMessage cstBlockedSlot (Msg.request 0 0 1)).1.allocated 0 0 = 1 ∧
      ¬((handleMessage cstBlockedSlot (Msg.request 0 0 1)).1.available 0
        = cstBlockedSlot.available 0) := by
  decide

/-- C8 (amended): the code performs no state check on a request message:
a request from a slot that is not ready is processed exactly like any
other request.  When the resource has any instance available the sender
is granted one instance, the ledger is updated, a grant is emitted and
the scheduling state of the slot is left as it was (still not ready). -/
theorem nonready_request_processed (st : OssState) (i : Fin MAX_PROC)
    (r : Fin MAX_RESOURCES) (q : Nat) (hs : st.state i ≠ READY)
    (ha : 0 < st.available r) :
    (handleMessage st (Msg.request i r q)).1.allocated i r = st.allocated i r + 1 ∧
      (handleMessage st (Msg.request i r q)).1.available r = st.available r - 1 ∧
      (handleMessage st (Msg.request i r q)).1.state i = st.state i ∧
      (handleMessage st (Msg.request i r q)).1.state i ≠ READY ∧
      (handleMessage st (Msg.request i r q)).2 = [(i, r)] := by
  refine ⟨?_, ?_, ?_, ?_, ?_⟩
  · simp [handleMessage, if_pos ha]
  · simp [handleMessage, if_pos ha]
  · simp [handleMessage, if_pos ha]
  · simpa [handleMessage, if_pos ha] using hs
  · simp [handleMessage, if_pos ha]

/-- C8 witness: the amended non-ready request behaviour at the concrete
blocked-slot state. -/
theorem nonready_request_processed_witness :
    (handleMessage cstBlockedSlot (Msg.request 0 0 1)).1.allocated 0 0
        = cstBlockedSlot.allocated 0 0 + 1 ∧
      (handleMessage cstBlockedSlot (Msg.request 0 0 1)).1.available 0
        = cstBlockedSlot.available 0 - 1 ∧
      (handleMessage cstBlockedSlot (Msg.request 0 0 1)).1.state 0
        = cstBlockedSlot.state 0 ∧
      (handleMessage cstBlockedSlot (Msg.request 0 0 1)).1.state 0 ≠ READY ∧
      (handleMessage cstBlockedSlot (Msg.request 0 0 1)).2 = [(0, 0)] :=
  nonready_request_processed cstBlockedSlot 0 0 1 (by decide) (by decide)

/-- C6 counterexample: slot 0 holds two instances of resource 0; a
release message with quantity two returns only one instance, leaving one
allocated, contradicting the claim that exactly the carried quantity is
subtracted and added. -/
theorem release_quantity_counterexample :
    cstHolder.allocated 0 0 = 2 ∧
      (handleMessage cstHolder (Msg.release 0 0 2)).1.allocated 0 0 = 1 ∧
      (handleMessage cstHolder (Msg.release 0 0 2)).1.available 0 = 9 ∧
      ¬((handleMessage cstHolder (Msg.release 0 0 2)).1.allocated 0 0 = 0 ∧
        (handleMessage cstHolder (Msg.release 0 0 2)).1.available 0 = 10) := by
  decide

/-- C6 (amended): a release message releases exactly one instance when
the sender holds any instance of the resource, whatever quantity the
message carries: the allocation drops by one and the available count
rises by one, all other ledger entries and all scheduling states are
unchanged, and no grant is emitted.  A release of a resource the sender
does not hold leaves the state entirely unchanged and emits no grant. -/
theorem release_single_instance (st : OssState) (i : Fin MAX_PROC)
    (r : Fin MAX_RESOURCES) (q : Nat) :
    (0 < st.allocated i r →
      (handleMessage st (Msg.release i r q)).1.allocated i r = st.allocated i r - 1 ∧
      (handleMessage st (Msg.release i r q)).1.available r = st.available r + 1 ∧
      (∀ j s, j ≠ i ∨ s ≠ r →
        (handleMessage st (Msg.release i r q)).1.allocated j s = st.allocated j s) ∧
      (∀ s, s ≠ r → (handleMessage st (Msg.release i r q)).1.available s = st.available s) ∧
      (∀ j, (handleMessage st (Msg.release i r q)).1.state j = st.state j) ∧
      (handleMessage st (Msg.release i r q)).2 = []) ∧
    (st.allocated i r = 0 → handleMessage st (Msg.release i r q) = (st, [])) := by
  constructor
  · intro ha
    refine ⟨?_, ?_, ?_, ?_, ?_, ?_⟩
    · simp [handleMessage, if_pos ha]
    · simp [handleMessage, if_pos ha]
    · intro j s hjs
      rcases hjs with hj | hsr
      · simp [handleMessage, if_pos ha, Function.update_noteq hj]
      · by_cases hji : j = i
        · subst hji
          simp [handleMessage, if_pos ha, Function.update_noteq hsr]
        · simp [handleMessage, if_pos ha, Function.update_noteq hji]
    · intro s hsr
      simp [handleMessage, if_pos ha, Function.update_noteq hsr]
    · intro j; simp [handleMessage, if_pos ha]
    · simp [handleMessage, if_pos ha]
  · intro ha
    have ha' : ¬(0 < st.allocated i r) := by omega
    simp [handleMessage, if_neg ha']

/-- C6 witness: the amended release characterisation applied at the
concrete holder state, both for a held and an unheld resource. -/
theorem release_single_instance_witness :
    ((handleMessage cstHolder (Msg.release 0 0 2)).1.allocated 0 0
        = cstHolder.allocated 0 0 - 1 ∧
      (handleMessage cstHolder (Msg.release 0 0 2)).1.available 0
        = cstHolder.available 0 + 1) ∧
      handleMessage cstHolder (Msg.release 0 1 3) = (cstHolder, []) :=
  ⟨⟨(((release_single_instance cstHolder 0 0 2).1 (by decide)).1),
     (((release_single_instance cstHolder 0 0 2).1 (by decide)).2.1)⟩,
    (release_single_instance cstHolder 0 1 3).2 (by decide)⟩

/-- C5: request exclusivity is broken by the wait-queue grant path.  At a
state where slot 1 is blocked waiting for resource 0 with an outstanding
request of one instance and one instance is available, the sweep of
checkWaitingRequests grants the instance and marks the slot ready but
never clears the request count: the resulting ready slot still has
requested value 1, contradicting the claimed invariant (and the source
comment describing requested as instances requested but not granted). -/
theorem unblock_leaves_request_set :
    cstWaiter.state 1 = BLOCKED ∧ cstWaiter.requested 1 0 = 1 ∧
      (checkWaitingRequests cstWaiter).1.state 1 = READY ∧
      (checkWaitingRequests cstWaiter).1.allocated 1 0 = 1 ∧
      (checkWaitingRequests cstWaiter).1.waiting_for 1 = none ∧
      (checkWaitingRequests cstWaiter).1.requested 1 0 = 1 := by
  decide

/-- C3 counterexample: slot 2 blocks on resource 0 first, then slot 1
blocks on the same resource; after slot 0 releases two instances the
sweep can satisfy both, and it grants slot 1 before slot 2 — the grant
order follows the slot index, not the blocking order, contradicting the
claim that the earlier blocker is unblocked and granted first. -/
theorem regrant_fifo_counterexample :
    (handleMessage c3base (Msg.request 2 0 1)).1.state 2 = BLOCKED ∧
      (handleMessage c3base (Msg.request 2 0 1)).1.state 1 = READY ∧
      c3blocked.state 1 = BLOCKED ∧ c3blocked.state 2 = BLOCKED ∧
      c3released.available 0 = 2 ∧
      ((checkWaitingRequests c3released).2.map fun g => g.1.val) = [1, 2] := by
  decide

theorem serveSlot_snd (acc : OssState × List (Fin MAX_PROC × Fin MAX_RESOURCES))
    (i : Fin MAX_PROC) :
    (serveSlot acc i).2 = acc.2 ∨
      ∃ r, (serveSlot acc i).2 = acc.2 ++ [(i, r)] := by
  unfold serveSlot
  dsimp only
  split
  · split
    · rename_i r heq
      split
      · exact Or.inr ⟨r, rfl⟩
      · exact Or.inl rfl
    · exact Or.inl rfl
  · exact Or.inl rfl

theorem foldl_serve_grants (l : List (Fin MAX_PROC))
    (acc : OssState × List (Fin MAX_PROC × Fin MAX_RESOURCES)) :
    ∃ g, (l.foldl serveSlot acc).2 = acc.2 ++ g ∧
      List.Sublist (g.map Prod.fst) l := by
  induction l generalizing acc with
  | nil => exact ⟨[], by simp, by simp⟩
  | cons i l ih =>
      obtain ⟨g, hg, hs⟩ := ih (serveSlot acc i)
      rcases serveSlot_snd acc i with h | ⟨r, h⟩
      · refine ⟨g, ?_, hs.cons i⟩
        rw [List.foldl_cons, hg, h]
      · refine ⟨(i, r) :: g, ?_, ?_⟩
        · rw [List.foldl_cons, hg, h, List.append_assoc]
          rfl
        · simpa using hs.cons₂ i

/-- C3 (amended): within one sweep of checkWaitingRequests, blocked
waiters are served in strictly ascending slot-index order (one instance
each), regardless of the order in which they blocked: the slot indices of
the emitted grant list are strictly increasing. -/
theorem regrant_index_order (st : OssState) :
    ((checkWaitingRequests st).2.map Prod.fst).Pairwise (· < ·) := by
  obtain ⟨g, hg, hs⟩ := foldl_serve_grants (List.finRange MAX_PROC) (st, [])
  unfold checkWaitingRequests
  rw [hg]
  simp only [List.nil_append]
  exact (List.pairwise_lt_finRange MAX_PROC).sublist hs

/-- C9 counterexample: the per-iteration clock increment at rand value 0
is 10000 nanoseconds, far outside the claimed range [100, 1099]. -/
theorem clock_delta_range_counterexample :
    nsIncrement 0 = 10000 ∧ ¬(100 ≤ nsIncrement 0 ∧ nsIncrement 0 ≤ 1099) := by
  decide

/-- C9 (amended): each event-loop iteration advances the clock by a
positive pseudo-random delta in the range [10000, 1009999] nanoseconds
(rand() % 1000000 + 10000), and after the advance the nanoseconds field
is again strictly below one second. -/
theorem clock_delta_bounds (randVal : Nat) (c : SystemClock) :
    10000 ≤ nsIncrement randVal ∧ nsIncrement randVal ≤ 1009999 ∧
      0 < nsIncrement randVal ∧
      (c.nanoseconds < 1000000000 →
        (mainClockTick c randVal).nanoseconds < 1000000000) := by
  have h1 : randVal % 1000000 < 1000000 := Nat.mod_lt _ (by omega)
  have h2 : nsIncrement randVal ≤ 1009999 := by unfold nsIncrement; omega
  have h3 : 10000 ≤ nsIncrement randVal := by unfold nsIncrement; omega
  refine ⟨h3, h2, by omega, ?_⟩
  intro hc
  simp only [mainClockTick]
  have hsum : c.nanoseconds + nsIncrement randVal < U32 := by unfold U32; omega
  rw [Nat.mod_eq_of_lt hsum]
  split
  · dsimp only
    omega
  · dsimp only
    omega

/-- C9 witness: the delta bounds and normalisation at rand value 0 from
a zero clock. -/
theorem clock_delta_bounds_witness :
    (mainClockTick ⟨0, 0⟩ 0).nanoseconds < 1000000000 :=
  (clock_delta_bounds 0 ⟨0, 0⟩).2.2.2 (by decide)

theorem find?_first (p : Fin MAX_PROC → Bool) (l : List (Fin MAX_PROC))
    (hp : List.Pairwise (· < ·) l) (i : Fin MAX_PROC) (hi : i ∈ l)
    (hpi : p i = true) (hlow : ∀ j, j < i → p j = false) :
    l.find? p = some i := by
  induction l with
  | nil => cases hi
  | cons a l ih =>
      rcases List.mem_cons.mp hi with rfl | hmem
      · exact List.find?_cons_of_pos l hpi
      · have hal : a < i := (List.pairwise_cons.mp hp).1 i hmem
        have hpa : p a = false := hlow a hal
        rw [List.find?_cons_of_neg l (by simp [hpa])]
        exact ih (List.pairwise_cons.mp hp).2 hmem

/-- C4 counterexample: at a three-slot state whose deadlocked set is
{0, 1, 2}, one call of the recovery routine terminates a single victim
and returns while the freshly recomputed deadlocked set still has two
members — recovery does not continue until the deadlocked set is empty
and performs only one termination, not one per victim of the initial
set. -/
theorem recovery_single_victim_counterexample :
    numDeadlocked cstTriple = 3 ∧
      numDeadlocked (resolveDeadlock cstTriple (deadlockedSet cstTriple)) = 2 ∧
      (resolveDeadlock cstTriple
        (deadlockedSet cstTriple)).processes_terminated_by_deadlock = 1 := by
  decide

/-- C4 (amended): deadlock recovery terminates exactly one victim per
invocation: the lowest-indexed member of the deadlocked set is
terminated — its resources released, the slot marked unused and the
deadlock-termination counter incremented once — and the routine returns
without re-running the safety check; any residual deadlock is left to
the next periodic detection run. -/
theorem resolveDeadlock_first_victim (st : OssState) (dead : Fin MAX_PROC → Bool)
    (i : Fin MAX_PROC) (hi : dead i = true) (hmin : ∀ j, j < i → dead j = false) :
    resolveDeadlock st dead =
      { releaseAllResources st i with
          pid := Function.update (releaseAllResources st i).pid i 0,
          state := Function.update (releaseAllResources st i).state i UNUSED,
          processes_terminated_by_deadlock :=
            st.processes_terminated_by_deadlock + 1 } := by
  unfold resolveDeadlock
  rw [find?_first (fun j => dead j) (List.finRange MAX_PROC)
    (List.pairwise_lt_finRange MAX_PROC) i (List.mem_finRange i) hi hmin]

/-- C4 witness: the single-victim characterisation applied at the
three-slot deadlock state, whose least deadlocked slot is 0. -/
theorem resolveDeadlock_first_victim_witness :
    resolveDeadlock cstTriple (deadlockedSet cstTriple) =
      { releaseAllResources cstTriple 0 with
          pid := Function.update (releaseAllResources cstTriple 0).pid 0 0,
          state := Function.update (releaseAllResources cstTriple 0).state 0 UNUSED,
          processes_terminated_by_deadlock :=
            cstTriple.processes_terminated_by_deadlock + 1 } :=
  resolveDeadlock_first_victim cstTriple (deadlockedSet cstTriple) 0
    (by decide) (by decide)

theorem normalizeClock_lt (fuel sec ns : Nat) (h : ns < 1000000000) :
    normalizeClock fuel sec ns = (sec, ns) := by
  cases fuel with
  | zero => rfl
  | succ n =>
      unfold normalizeClock
      rw [if_neg (by omega)]

theorem normalizeClock_once (sec ns : Nat) (h1 : 1000000000 ≤ ns)
    (h2 : ns < 2000000000) :
    normalizeClock 5 sec ns = ((sec + 1) % U32, ns - 1000000000) := by
  unfold normalizeClock
  rw [if_pos h1]
  exact normalizeClock_lt 4 _ _ (by omega)

/-- C10: for 32-bit clock values with normalised nanosecond fields and
start not after end under compareTime, adding the elapsed pair computed
by getElapsedTime back to the start clock with addTime yields exactly the
end clock, and the elapsed nanoseconds field is itself normalised. -/
theorem addTime_getElapsedTime_roundtrip (s e : SystemClock)
    (hs1 : s.seconds < U32) (he1 : e.seconds < U32)
    (hs2 : s.nanoseconds < 1000000000) (he2 : e.nanoseconds < 1000000000)
    (hle : compareTime s.seconds s.nanoseconds e.seconds e.nanoseconds ≤ 0) :
    addTime s (getElapsedTime s e).1 (getElapsedTime s e).2 = e ∧
      (getElapsedTime s e).2 < 1000000000 := by
  obtain ⟨ss, sn⟩ := s
  obtain ⟨es, en⟩ := e
  simp only [U32] at hs1 he1
  dsimp only at hs2 he2 hle ⊢
  have horder : ss < es ∨ (ss = es ∧ sn ≤ en) := by
    unfold compareTime at hle
    split at hle
    · omega
    · split at hle
      · omega
      · split at hle
        · omega
        · split at hle
          · omega
          · omega
  by_cases hb : en < sn
  · have hss : ss < es := by omega
    have hges : getElapsedTime ⟨ss, sn⟩ ⟨es, en⟩
        = (es - ss - 1, 1000000000 + en - sn) := by
      unfold getElapsedTime
      dsimp only
      rw [if_pos hb]
      have h1 : (es + U32 - ss) % U32 = es - ss := by simp only [U32]; omega
      rw [h1]
      have h2 : (es - ss + U32 - 1) % U32 = es - ss - 1 := by simp only [U32]; omega
      have h3 : (1000000000 + en + U32 - sn) % U32 = 1000000000 + en - sn := by
        simp only [U32]; omega
      rw [h2, h3]
    rw [hges]
    constructor
    · unfold addTime
      dsimp only
      have h4 : (ss + (es - ss - 1)) % U32 = es - 1 := by simp only [U32]; omega
      have h5 : (sn + (1000000000 + en - sn)) % U32 = 1000000000 + en := by
        simp only [U32]; omega
      rw [h4, h5, normalizeClock_once (es - 1) (1000000000 + en) (by omega) (by omega)]
      have h6 : (es - 1 + 1) % U32 = es := by simp only [U32]; omega
      dsimp only
      rw [h6]
      have h7 : 1000000000 + en - 1000000000 = en := by omega
      rw [h7]
    · dsimp only
      omega
  · have hges : getElapsedTime ⟨ss, sn⟩ ⟨es, en⟩ = (es - ss, en - sn) := by
      unfold getElapsedTime
      dsimp only
      rw [if_neg hb]
      have h1 : (es + U32 - ss) % U32 = es - ss := by simp only [U32]; omega
      rw [h1]
    rw [hges]
    constructor
    · unfold addTime
      dsimp only
      have h4 : (ss + (es - ss)) % U32 = es := by simp only [U32]; omega
      have h5 : (sn + (en - sn)) % U32 = en := by simp only [U32]; omega
      rw [h4, h5, normalizeClock_lt 5 es en he2]
    · dsimp only
      omega

/-- C10 witness: the round trip at the concrete clocks (1 s, 999999999 ns)
and (3 s, 5 ns), which exercises the borrow branch. -/
theorem addTime_getElapsedTime_roundtrip_witness :
    addTime ⟨1, 999999999⟩ (getElapsedTime ⟨1, 999999999⟩ ⟨3, 5⟩).1
        (getElapsedTime ⟨1, 999999999⟩ ⟨3, 5⟩).2 = ⟨3, 5⟩ ∧
      (getElapsedTime ⟨1, 999999999⟩ ⟨3, 5⟩).2 < 1000000000 :=
  addTime_getElapsedTime_roundtrip ⟨1, 999999999⟩ ⟨3, 5⟩ (by decide) (by decide)
    (by decide) (by decide) (by decide)

theorem passStep_found_mono (st : OssState) (a : DetectAcc) (i : Fin MAX_PROC)
    (h : a.found = true) : (passStep st a i).found = true := by
  unfold passStep
  split
  · rfl
  · exact h

theorem foldl_pass_found_mono (st : OssState) :
    ∀ (l : List (Fin MAX_PROC)) (a : DetectAcc), a.found = true →
      ((l.foldl (passStep st) a)).found = true := by
  intro l
  induction l with
  | nil => intro a h; exact h
  | cons i l ih => intro a h; exact ih _ (passStep_found_mono st a i h)

theorem passStep_found_false (st : OssState) (a : DetectAcc) (i : Fin MAX_PROC)
    (h : (passStep st a i).found = false) :
    passStep st a i = a ∧
      ¬(st.pid i ≠ 0 ∧ a.finish i = false ∧ canFinish st a.work i = true) := by
  by_cases hc : st.pid i ≠ 0 ∧ a.finish i = false ∧ canFinish st a.work i = true
  · unfold passStep at h
    rw [if_pos hc] at h
    cases h
  · unfold passStep
    rw [if_neg hc]
    exact ⟨rfl, hc⟩

theorem foldl_pass_found_false (st : OssState) :
    ∀ (l : List (Fin MAX_PROC)) (a : DetectAcc),
      ((l.foldl (passStep st) a)).found = false →
      l.foldl (passStep st) a = a ∧
        ∀ i ∈ l, ¬(st.pid i ≠ 0 ∧ a.finish i = false ∧ canFinish st a.work i = true) := by
  intro l
  induction l with
  | nil => intro a _; exact ⟨rfl, by simp⟩
  | cons i l ih =>
      intro a h
      rw [List.foldl_cons] at h
      have h1 : (passStep st a i).found = false := by
        by_contra hb
        rw [Bool.not_eq_false] at hb
        rw [foldl_pass_found_mono st l _ hb] at h
        cases h
      obtain ⟨heq, hneg⟩ := passStep_found_false st a i h1
      rw [heq] at h
      obtain ⟨ha, hall⟩ := ih a h
      refine ⟨?_, ?_⟩
      · rw [List.foldl_cons, heq, ha]
      · intro j hj
        rcases List.mem_cons.mp hj with rfl | hj
        · exact hneg
        · exact hall j hj

theorem passStep_finish_mono (st : OssState) (a : DetectAcc) (i j : Fin MAX_PROC)
    (h : a.finish j = true) : (passStep st a i).finish j = true := by
  unfold passStep
  split
  · dsimp only
    by_cases hji : j = i
    · subst hji
      rw [Function.update_same]
    · rw [Function.update_noteq hji]
      exact h
  · exact h

theorem foldl_pass_finish_mono (st : OssState) :
    ∀ (l : List (Fin MAX_PROC)) (a : DetectAcc) (j : Fin MAX_PROC),
      a.finish j = true → ((l.foldl (passStep st) a)).finish j = true := by
  intro l
  induction l with
  | nil => intro a j h; exact h
  | cons i l ih => intro a j h; exact ih _ j (passStep_finish_mono st a i j h)

theorem foldl_pass_flip (st : OssState) :
    ∀ (l : List (Fin MAX_PROC)) (a : DetectAcc), a.found = false →
      ((l.foldl (passStep st) a)).found = true →
      ∃ j, a.finish j = false ∧ ((l.foldl (passStep st) a)).finish j = true := by
  intro l
  induction l with
  | nil =>
      intro a h0 h1
      rw [List.foldl_nil, h0] at h1
      cases h1
  | cons i l ih =>
      intro a h0 h1
      rw [List.foldl_cons] at h1 ⊢
      by_cases hx : (passStep st a i).found = true
      · have hstep : a.finish i = false ∧ (passStep st a i).finish i = true := by
          by_cases hc : st.pid i ≠ 0 ∧ a.finish i = false ∧ canFinish st a.work i = true
          · refine ⟨hc.2.1, ?_⟩
            unfold passStep
            rw [if_pos hc]
            dsimp only
            rw [Function.update_same]
          · unfold passStep at hx
            rw [if_neg hc] at hx
            rw [h0] at hx
            cases hx
        exact ⟨i, hstep.1, foldl_pass_finish_mono st l _ i hstep.2⟩
      · rw [Bool.not_eq_true] at hx
        obtain ⟨heq, _⟩ := passStep_found_false st a i hx
        rw [heq] at h1 ⊢
        exact ih a h0 h1

theorem detectPass_card_lt (st : OssState) (w : Fin MAX_RESOURCES → Nat)
    (f : Fin MAX_PROC → Bool) (h : (detectPass st w f).found = true) :
    unfinishedCard (detectPass st w f).finish < unfinishedCard f := by
  unfold detectPass at h ⊢
  obtain ⟨j, hj0, hj1⟩ := foldl_pass_flip st (List.finRange MAX_PROC) ⟨w, f, false⟩ rfl h
  unfold unfinishedCard
  apply Finset.card_lt_card
  rw [Finset.ssubset_iff_of_subset]
  · refine ⟨j, Finset.mem_filter.mpr ⟨Finset.mem_univ j, hj0⟩, ?_⟩
    simp only [Finset.mem_filter, not_and]
    intro _
    rw [hj1]
    simp
  · intro x hx
    simp only [Finset.mem_filter] at hx ⊢
    refine ⟨Finset.mem_univ x, ?_⟩
    by_contra hfx
    rw [Bool.not_eq_false] at hfx
    have hmono := foldl_pass_finish_mono st (List.finRange MAX_PROC) ⟨w, f, false⟩ x hfx
    rw [hx.2] at hmono
    cases hmono

theorem endWork_append (st : OssState) (L : List (Fin MAX_PROC)) (i : Fin MAX_PROC) :
    ∀ w, endWork st w (L ++ [i]) = fun r => endWork st w L r + st.allocated i r := by
  induction L with
  | nil => intro w; rfl
  | cons j L ih => intro w; exact ih _

theorem chainOk_append (st : OssState) (i : Fin MAX_PROC) (L : List (Fin MAX_PROC)) :
    ∀ w, chainOk st w L = true → st.pid i ≠ 0 →
      canFinish st (endWork st w L) i = true → chainOk st w (L ++ [i]) = true := by
  induction L with
  | nil =>
      intro w _ hp hc
      simp only [endWork] at hc
      simp [chainOk, hp, hc]
  | cons j L ih =>
      intro w hch hp hc
      simp only [List.cons_append, chainOk, Bool.and_eq_true] at hch ⊢
      exact ⟨hch.1, ih _ hch.2 hp hc⟩

theorem detectInv_passStep (st : OssState) (a : DetectAcc) (i : Fin MAX_PROC)
    (h : detectInv st a.work a.finish) :
    detectInv st (passStep st a i).work (passStep st a i).finish := by
  unfold passStep
  split
  · rename_i hc
    obtain ⟨hp, hf, hcf⟩ := hc
    obtain ⟨L, hch, hnd, hiff, hw⟩ := h
    dsimp only
    refine ⟨L ++ [i], ?_, ?_, ?_, ?_⟩
    · refine chainOk_append st i L st.available hch hp ?_
      rw [← hw]
      exact hcf
    · have hiL : i ∉ L := by
        intro hmem
        have := (hiff i).mpr (Or.inr hmem)
        rw [this] at hf
        cases hf
      simp [List.nodup_append, hnd, hiL]
    · intro j
      by_cases hji : j = i
      · subst hji
        rw [Function.update_same]
        simp
      · rw [Function.update_noteq hji, hiff j]
        simp [List.mem_append, hji]
    · funext r
      rw [endWork_append]
      dsimp only
      rw [hw]
  · exact h

theorem detectInv_foldl (st : OssState) :
    ∀ (l : List (Fin MAX_PROC)) (a : DetectAcc), detectInv st a.work a.finish →
      detectInv st ((l.foldl (passStep st) a)).work ((l.foldl (passStep st) a)).finish := by
  intro l
  induction l with
  | nil => intro a h; exact h
  | cons i l ih => intro a h; exact ih _ (detectInv_passStep st a i h)

theorem detectLoopFuel_inv (st : OssState) :
    ∀ (n : Nat) (w : Fin MAX_RESOURCES → Nat) (f : Fin MAX_PROC → Bool),
      detectInv st w f →
      detectInv st (detectLoopFuel st n w f).1 (detectLoopFuel st n w f).2 := by
  intro n
  induction n with
  | zero => intro w f h; exact h
  | succ n ih =>
      intro w f h
      have hpass : detectInv st (detectPass st w f).work (detectPass st w f).finish :=
        detectInv_foldl st (List.finRange MAX_PROC) ⟨w, f, false⟩ h
      unfold detectLoopFuel
      split
      · exact ih _ _ hpass
      · exact hpass

theorem detectLoopFuel_fix (st : OssState) :
    ∀ (n : Nat) (w : Fin MAX_RESOURCES → Nat) (f : Fin MAX_PROC → Bool),
      unfinishedCard f < n →
      detectPass st (detectLoopFuel st n w f).1 (detectLoopFuel st n w f).2 =
        ⟨(detectLoopFuel st n w f).1, (detectLoopFuel st n w f).2, false⟩ := by
  intro n
  induction n with
  | zero => intro w f h; exact absurd h (by omega)
  | succ n ih =>
      intro w f hcard
      by_cases hfound : (detectPass st w f).found = true
      · have hlt := detectPass_card_lt st w f hfound
        have hstep : detectLoopFuel st (n + 1) w f
            = detectLoopFuel st n (detectPass st w f).work (detectPass st w f).finish := by
          rw [detectLoopFuel, if_pos hfound]
        rw [hstep]
        exact ih _ _ (by omega)
      · have hfalse : (detectPass st w f).found = false := by
          rwa [Bool.not_eq_true] at hfound
        have heq : detectPass st w f = ⟨w, f, false⟩ := by
          unfold detectPass at hfalse ⊢
          exact (foldl_pass_found_false st (List.finRange MAX_PROC) ⟨w, f, false⟩ hfalse).1
        have hstep : detectLoopFuel st (n + 1) w f
            = ((detectPass st w f).work, (detectPass st w f).finish) := by
          rw [detectLoopFuel, if_neg hfound]
        rw [hstep, heq]
        dsimp only
        exact heq

/-- C2: correctness of the safety loop of detectDeadlock.  Starting from
work = available and finish true exactly on the empty slots, the final
finish flags mark exactly the empty slots together with a duplicate-free
ordering of occupied slots each of which can finish with the work
accumulated from its predecessors; and every occupied slot left
unfinished has some resource whose outstanding request exceeds the final
work vector. -/
theorem detectDeadlock_correct (st : OssState) :
    (∃ L : List (Fin MAX_PROC), chainOk st st.available L = true ∧ L.Nodup ∧
      ∀ i, (detectDeadlock st).2 i = true ↔ (st.pid i = 0 ∨ i ∈ L)) ∧
    (∀ i, st.pid i ≠ 0 → (detectDeadlock st).2 i = false →
      ∃ r, (detectDeadlock st).1 r < st.requested i r) := by
  have hcard : unfinishedCard (fun i => decide (st.pid i = 0)) < MAX_PROC + 1 := by
    have hle := Finset.card_filter_le (Finset.univ : Finset (Fin MAX_PROC))
      (fun i => (fun i => decide (st.pid i = 0)) i = false)
    have hu : (Finset.univ : Finset (Fin MAX_PROC)).card = MAX_PROC := Finset.card_fin _
    unfold unfinishedCard
    omega
  have hfix := detectLoopFuel_fix st (MAX_PROC + 1) st.available
    (fun i => decide (st.pid i = 0)) hcard
  have hinit : detectInv st st.available (fun i => decide (st.pid i = 0)) := by
    refine ⟨[], rfl, List.nodup_nil, ?_, rfl⟩
    intro i
    simp
  have hinv := detectLoopFuel_inv st (MAX_PROC + 1) st.available
    (fun i => decide (st.pid i = 0)) hinit
  constructor
  · obtain ⟨L, hch, hnd, hiff, _⟩ := hinv
    exact ⟨L, hch, hnd, hiff⟩
  · intro i hp hf
    have hff : ((List.finRange MAX_PROC).foldl (passStep st)
        ⟨(detectDeadlock st).1, (detectDeadlock st).2, false⟩).found = false := by
      have hcg := congrArg DetectAcc.found hfix
      exact hcg
    obtain ⟨_, hall⟩ := foldl_pass_found_false st (List.finRange MAX_PROC)
      ⟨(detectDeadlock st).1, (detectDeadlock st).2, false⟩ hff
    have hni := hall i (List.mem_finRange i)
    have hcf : canFinish st (detectDeadlock st).1 i = false := by
      by_contra hb
      rw [Bool.not_eq_false] at hb
      exact hni ⟨hp, hf, hb⟩
    unfold canFinish at hcf
    rw [decide_eq_false_iff_not] at hcf
    push_neg at hcf
    exact hcf

/-- C2 witness: the deadlocked-slot characterisation applied to slot 1 of
the concrete two-slot circular-wait state. -/
theorem detectDeadlock_correct_witness :
    ∃ r, (detectDeadlock cstDeadlock).1 r < cstDeadlock.requested 1 r :=
  (detectDeadlock_correct cstDeadlock).2 1 (by decide) (by decide)
